import Mathlib

set_option autoImplicit false
set_option maxRecDepth 100000

deriving instance DecidableEq for Except

namespace CioSpec

/-!
Shallow embedding of the cio repository's GitHub content-synchronization core:
`src/cio/src/utils.rs` (content fetcher/writer, byte trim) and
`src/cio/src/rfd/github.rs` (README resolution, image walk, manifest parsing).
Remote API calls are modelled as an explicit environment; the side effects of a
call are recorded in an explicit effect trace.
-/

/-- Byte strings (Rust `Vec<u8>` / `&[u8]`) are modelled as lists of byte values. -/
abbrev Bytes := List Nat

/-- The bytes of an ASCII string literal. -/
def asciiB (s : String) : Bytes := s.data.map Char.toNat

/-- Substring containment on lists; Rust `str::contains` is byte-level search for
ASCII patterns, modelled as contiguous-sublist containment. -/
def containsSeq {α : Type} [DecidableEq α] : List α → List α → Bool
  | [], pat => pat.isEmpty
  | hay@(_ :: rest), pat => pat.isPrefixOf hay || containsSeq rest pat

/-- Rust `str::contains` on strings, via their character lists. -/
def strContains (s pat : String) : Bool := containsSeq s.data pat.data

/-! ## `SliceExt::trim` (utils.rs lines 202-226) -/

/-- `is_whitespace` from `SliceExt::trim`: a tab or space byte. -/
def is_whitespace (c : Nat) : Bool := c == 9 || c == 32

/-- `is_not_whitespace` from `SliceExt::trim`. -/
def is_not_whitespace (c : Nat) : Bool := !is_whitespace c

/-- Rust `Iterator::position`: index of the first element satisfying `p`. -/
def position (p : Nat → Bool) : Bytes → Option Nat
  | [] => none
  | c :: rest => if p c then some 0 else (position p rest).map (· + 1)

/-- Rust `Iterator::rposition`: index (from the front) of the last element
satisfying `p`, found by searching from the back. -/
def rposition (p : Nat → Bool) (v : Bytes) : Option Nat :=
  match position p v.reverse with
  | none => none
  | some i => some (v.length - 1 - i)

/-- `SliceExt::trim for Vec<u8>` (utils.rs lines 206-226). `none` models the
`unreachable!()` panic arm. -/
def sliceTrim (v : Bytes) : Option Bytes :=
  match position is_not_whitespace v with
  | some first =>
    match rposition is_not_whitespace v with
    | some last => some ((v.drop first).take (last + 1 - first))
    | none => none
  | none => some []

/-- The specification's description of the trim: leading and trailing tab/space
bytes removed, interior bytes untouched. -/
def trimSpec (v : Bytes) : Bytes :=
  ((v.dropWhile is_whitespace).reverse.dropWhile is_whitespace).reverse

theorem position_none_iff (p : Nat → Bool) (v : Bytes) :
    position p v = none ↔ ∀ c ∈ v, p c = false := by
  induction v with
  | nil => simp [position]
  | cons c rest ih =>
    by_cases h : p c <;> simp [position, h, ih, Option.map_eq_none']

theorem position_lt_length (p : Nat → Bool) (v : Bytes) (i : Nat)
    (h : position p v = some i) : i < v.length := by
  induction v generalizing i with
  | nil => simp [position] at h
  | cons c rest ih =>
    by_cases hc : p c
    · simp [position, hc] at h
      simp only [List.length_cons]
      omega
    · simp [position, hc, Option.map_eq_some'] at h
      obtain ⟨j, hj, rfl⟩ := h
      have := ih j hj
      simp only [List.length_cons]
      omega

theorem position_takeWhile_dropWhile (p : Nat → Bool) (v : Bytes) (i : Nat)
    (h : position p v = some i) :
    i = (v.takeWhile (fun c => !p c)).length ∧
      v.drop i = v.dropWhile (fun c => !p c) := by
  induction v generalizing i with
  | nil => simp [position] at h
  | cons c rest ih =>
    by_cases hc : p c
    · simp [position, hc] at h
      subst h
      simp [List.takeWhile_cons, List.dropWhile_cons, hc]
    · simp [position, hc, Option.map_eq_some'] at h
      obtain ⟨j, hj, rfl⟩ := h
      obtain ⟨h1, h2⟩ := ih j hj
      refine ⟨?_, ?_⟩
      · simp [List.takeWhile_cons, hc, h1]
      · simpa [List.dropWhile_cons, hc] using h2

theorem position_append_left (p : Nat → Bool) (a b : Bytes) (k : Nat)
    (h : position p a = some k) : position p (a ++ b) = some k := by
  induction a generalizing k with
  | nil => simp [position] at h
  | cons c rest ih =>
    by_cases hc : p c
    · simp [position, hc] at h ⊢
      omega
    · simp [position, hc, Option.map_eq_some'] at h ⊢
      obtain ⟨j, hj, rfl⟩ := h
      exact ⟨j, ih j hj, rfl⟩

theorem position_some_exists (p : Nat → Bool) (v : Bytes) (i : Nat)
    (h : position p v = some i) : ∃ c ∈ v, p c = true := by
  induction v generalizing i with
  | nil => simp [position] at h
  | cons c rest ih =>
    by_cases hc : p c
    · exact ⟨c, List.mem_cons_self c rest, hc⟩
    · simp [position, hc, Option.map_eq_some'] at h
      obtain ⟨j, hj, rfl⟩ := h
      obtain ⟨x, hx, hpx⟩ := ih j hj
      exact ⟨x, List.mem_cons_of_mem c hx, hpx⟩

theorem position_reverse_some (p : Nat → Bool) (v : Bytes) (i : Nat)
    (h : position p v = some i) : ∃ k, position p v.reverse = some k := by
  obtain ⟨c, hc, hpc⟩ := position_some_exists p v i h
  cases hk : position p v.reverse with
  | some k => exact ⟨k, rfl⟩
  | none =>
    rw [position_none_iff] at hk
    have := hk c (List.mem_reverse.mpr hc)
    rw [this] at hpc
    exact absurd hpc (by simp)

theorem rposition_eq (p : Nat → Bool) (v : Bytes) (i : Nat)
    (h : position p v.reverse = some i) :
    rposition p v = some (v.length - 1 - i) := by
  simp [rposition, h]

/-- Helper bridging the double negation between the two source predicates. -/
theorem not_is_not_whitespace :
    (fun c => !is_not_whitespace c) = is_whitespace := by
  funext c
  simp [is_not_whitespace]

/-- Key characterization shared by several claims: `SliceExt::trim` is total
(the `unreachable!()` arm is dead) and removes exactly the leading and trailing
tab/space bytes. -/
theorem sliceTrim_eq (v : Bytes) : sliceTrim v = some (trimSpec v) := by
  induction v with
  | nil => simp [sliceTrim, position, trimSpec]
  | cons c rest ih =>
    by_cases hc : is_whitespace c
    · have hpc : is_not_whitespace c = false := by
        simp [is_not_whitespace, hc]
      cases hrest : position is_not_whitespace rest with
      | none =>
        have hall := (position_none_iff _ rest).mp hrest
        have hnone : position is_not_whitespace (c :: rest) = none := by
          rw [position_none_iff]
          intro x hx
          rcases List.mem_cons.mp hx with h | h
          · subst h; exact hpc
          · exact hall x h
        have hrw : rest.dropWhile is_whitespace = [] := by
          rw [List.dropWhile_eq_nil_iff]
          intro x hx
          have := hall x hx
          simpa [is_not_whitespace] using this
        simp [sliceTrim, hnone, trimSpec, List.dropWhile_cons, hc, hrw]
      | some i =>
        -- the head is whitespace and the tail has a non-whitespace byte
        obtain ⟨k, hk⟩ := position_reverse_some _ rest i hrest
        have hkl : k < rest.length := by
          have := position_lt_length _ rest.reverse k hk
          simpa using this
        have hcons : position is_not_whitespace (c :: rest) = some (i + 1) := by
          simp [position, hpc, hrest]
        have hrevc : (c :: rest).reverse = rest.reverse ++ [c] := by
          simp
        have hposr : position is_not_whitespace ((c :: rest).reverse) = some k := by
          rw [hrevc]
          exact position_append_left _ _ _ _ hk
        have hrpos : rposition is_not_whitespace (c :: rest) = some (rest.length - k) := by
          have h0 := rposition_eq _ (c :: rest) k hposr
          have harith0 : (c :: rest).length - 1 - k = rest.length - k := by
            simp only [List.length_cons]
            omega
          rw [harith0] at h0
          exact h0
        have hrposr : rposition is_not_whitespace rest = some (rest.length - 1 - k) :=
          rposition_eq _ rest k hk
        have ihval : (rest.drop i).take ((rest.length - 1 - k) + 1 - i) = trimSpec rest := by
          have := ih
          simp [sliceTrim, hrest, hrposr] at this
          exact this
        have harith : rest.length - k + 1 - (i + 1) = (rest.length - 1 - k) + 1 - i := by
          omega
        have hts : trimSpec (c :: rest) = trimSpec rest := by
          simp [trimSpec, List.dropWhile_cons, hc]
        rw [hts, ← ihval]
        simp [sliceTrim, hcons, hrpos, harith]
    · -- head is not whitespace: first = 0, result is v.take (last + 1)
      have hpc : is_not_whitespace c = true := by
        simp [is_not_whitespace, hc]
      have hcons : position is_not_whitespace (c :: rest) = some 0 := by
        simp [position, hpc]
      have hmem0 : position is_not_whitespace ((c :: rest).reverse) ≠ none := by
        intro hnone
        rw [position_none_iff] at hnone
        have := hnone c (by simp)
        rw [hpc] at this
        exact absurd this (by simp)
      cases hj : position is_not_whitespace ((c :: rest).reverse) with
      | none => exact absurd hj hmem0
      | some j =>
        have hjl : j < (c :: rest).length := by
          have := position_lt_length _ ((c :: rest).reverse) j hj
          simpa using this
        obtain ⟨hj1, hj2⟩ := position_takeWhile_dropWhile _ _ _ hj
        rw [not_is_not_whitespace] at hj2
        have hrpos : rposition is_not_whitespace (c :: rest) =
            some ((c :: rest).length - 1 - j) :=
          rposition_eq _ (c :: rest) j hj
        have hdw : (c :: rest).dropWhile is_whitespace = c :: rest := by
          simp [List.dropWhile_cons, hc]
        have hlast : (c :: rest).length - 1 - j + 1 - 0 = (c :: rest).length - j := by
          omega
        have htake : (c :: rest).take ((c :: rest).length - j) =
            ((c :: rest).reverse.drop j).reverse := by
          have h0 := List.rdrop_eq_reverse_drop_reverse (c :: rest) j
          simpa [List.rdrop] using h0
        rw [hj2] at htake
        simp only [sliceTrim, hcons, hrpos, trimSpec, hdw, List.drop_zero, hlast]
        rw [htake]

/-- Claim C10: `SliceExt::trim` on `Vec<u8>` is total --- its `unreachable!()`
branch is never executed --- and returns the vector with exactly its leading and
trailing tab (0x09) and space (0x20) bytes removed, interior bytes (including
newlines) unchanged; an all-tab/space input yields the empty vector. -/
theorem sliceTrim_total_and_trims (v : Bytes) :
    sliceTrim v = some (((v.dropWhile is_whitespace).reverse.dropWhile
      is_whitespace).reverse) :=
  sliceTrim_eq v

/-! ## base64 and UTF-8 helpers (external crates used by utils.rs) -/

/-- Value of one character of the standard base64 alphabet. -/
def b64Val (c : Char) : Option Nat :=
  let n := c.toNat
  if 65 ≤ n ∧ n ≤ 90 then some (n - 65)
  else if 97 ≤ n ∧ n ≤ 122 then some (n - 97 + 26)
  else if 48 ≤ n ∧ n ≤ 57 then some (n - 48 + 52)
  else if c = '+' then some 62
  else if c = '/' then some 63
  else none

/-- `base64::decode_config(_, base64::STANDARD)`: canonically padded standard
base64; `none` models a decode error. -/
def base64DecodeChars : List Char → Option Bytes
  | [] => some []
  | [a, b, '=', '='] =>
    match b64Val a, b64Val b with
    | some va, some vb =>
      if vb % 16 = 0 then some [va * 4 + vb / 16] else none
    | _, _ => none
  | [a, b, c, '='] =>
    match b64Val a, b64Val b, b64Val c with
    | some va, some vb, some vc =>
      if vc % 4 = 0 then some [va * 4 + vb / 16, (vb % 16) * 16 + vc / 4] else none
    | _, _, _ => none
  | a :: b :: c :: d :: rest =>
    match b64Val a, b64Val b, b64Val c, b64Val d, base64DecodeChars rest with
    | some va, some vb, some vc, some vd, some tail =>
      some ([va * 4 + vb / 16, (vb % 16) * 16 + vc / 4, (vc % 4) * 64 + vd] ++ tail)
    | _, _, _, _, _ => none
  | _ => none

def base64Decode (s : String) : Option Bytes := base64DecodeChars s.data

/-- UTF-8 validity of a byte sequence (`std::str::from_utf8` succeeds). -/
def validUtf8 : Bytes → Bool
  | [] => true
  | b :: rest =>
    if b < 0x80 then validUtf8 rest
    else if 0xC2 ≤ b ∧ b ≤ 0xDF then
      match rest with
      | c :: rest2 => (0x80 ≤ c && c ≤ 0xBF) && validUtf8 rest2
      | [] => false
    else if 0xE0 ≤ b ∧ b ≤ 0xEF then
      match rest with
      | c :: d :: rest2 =>
        (if b = 0xE0 then 0xA0 ≤ c && c ≤ 0xBF
         else if b = 0xED then 0x80 ≤ c && c ≤ 0x9F
         else 0x80 ≤ c && c ≤ 0xBF) &&
        (0x80 ≤ d && d ≤ 0xBF) && validUtf8 rest2
      | _ => false
    else if 0xF0 ≤ b ∧ b ≤ 0xF4 then
      match rest with
      | c :: d :: e :: rest2 =>
        (if b = 0xF0 then 0x90 ≤ c && c ≤ 0xBF
         else if b = 0xF4 then 0x80 ≤ c && c ≤ 0x8F
         else 0x80 ≤ c && c ≤ 0xBF) &&
        (0x80 ≤ d && d ≤ 0xBF) && (0x80 ≤ e && e ≤ 0xBF) && validUtf8 rest2
      | _ => false
    else false

/-- `str::from_utf8(bytes).unwrap_or("")`, keeping the byte view of the string. -/
def fromUtf8OrEmpty (bs : Bytes) : Bytes := if validUtf8 bs then bs else []

/-- Decimal digits (ASCII) of a natural number. -/
def natDigitsAux : Nat → Nat → Bytes
  | 0, _ => []
  | fuel + 1, n => if n < 10 then [48 + n] else natDigitsAux fuel (n / 10) ++ [48 + n % 10]

def natDigits (n : Nat) : Bytes := natDigitsAux (n + 1) n

/-! ## Model of `diffy::create_patch_bytes` and `Patch::to_bytes`

`diffy` (an external crate) computes a minimal line diff (Myers) and renders it
as a unified diff with 3 context lines, file headers `--- original` /
`+++ modified`, hunk headers `@@ -start,len +start,len @@` (length omitted when
it is 1), and a `\ No newline at end of file` marker after a line lacking a
trailing newline. -/

/-- Split bytes into lines, each keeping its trailing newline byte. -/
def splitLinesKeep (bs : Bytes) : List Bytes :=
  go bs []
where
  go : Bytes → Bytes → List Bytes
    | [], acc => if acc.isEmpty then [] else [acc.reverse]
    | b :: rest, acc =>
      if b = 10 then (10 :: acc).reverse :: go rest [] else go rest (b :: acc)

/-- One element of a line diff. -/
inductive DiffOp where
  | eq (l : Bytes)
  | del (l : Bytes)
  | ins (l : Bytes)
deriving DecidableEq

def DiffOp.isChange : DiffOp → Bool
  | .eq _ => false
  | _ => true

def DiffOp.line : DiffOp → Bytes
  | .eq l => l
  | .del l => l
  | .ins l => l

/-- One row of the LCS table, built right-to-left from the next row. -/
def lcsBuildRow (oi : Bytes) : List Bytes → List Nat → List Nat
  | [], _ => [0]
  | nj :: nrest, next =>
    let restRow := lcsBuildRow oi nrest (next.drop 1)
    let cell :=
      if oi = nj then (next.drop 1).headD 0 + 1
      else max (next.headD 0) (restRow.headD 0)
    cell :: restRow

/-- All rows of the LCS table: `(lcsRows o n)[i][j]` is the LCS length of
`o.drop i` and `n.drop j`. -/
def lcsRows : List Bytes → List Bytes → List (List Nat)
  | [], n => [List.replicate (n.length + 1) 0]
  | oi :: orest, n =>
    let rows := lcsRows orest n
    lcsBuildRow oi n (rows.headD []) :: rows

/-- Backtrack through the LCS table, emitting a minimal edit script with
deletions preferred before insertions. -/
def lcsBacktrack : Nat → List Bytes → List Bytes → List (List Nat) → List DiffOp
  | 0, _, _, _ => []
  | _ + 1, [], n, _ => n.map DiffOp.ins
  | _ + 1, o@(_ :: _), [], _ => o.map DiffOp.del
  | fuel + 1, oi :: orest, nj :: nrest, rows =>
    if oi = nj then
      DiffOp.eq oi :: lcsBacktrack fuel orest nrest ((rows.drop 1).map (·.drop 1))
    else
      let delScore := ((rows.drop 1).headD []).headD 0
      let insScore := ((rows.headD []).drop 1).headD 0
      if insScore ≤ delScore then
        DiffOp.del oi :: lcsBacktrack fuel orest (nj :: nrest) (rows.drop 1)
      else
        DiffOp.ins nj :: lcsBacktrack fuel (oi :: orest) nrest (rows.map (·.drop 1))

/-- Minimal line diff between two line lists. -/
def lineDiff (o n : List Bytes) : List DiffOp :=
  lcsBacktrack (o.length + n.length + 1) o n (lcsRows o n)

/-- One smearing step: `out[i] = l[i] || l[i+1]`. -/
def orShift (l : List Bool) : List Bool :=
  l.zipWith (fun a b => a || b) ((l.drop 1).concat false)

/-- Flags marking the diff positions that belong to a hunk: every change, plus
equal lines within `context` positions of a change on either side. -/
def hunkFlags (context : Nat) (ops : List DiffOp) : List Bool :=
  let changed := ops.map DiffOp.isChange
  let fwd := Nat.repeat orShift context changed
  (Nat.repeat orShift context fwd.reverse).reverse

/-- Diff ops annotated with their (1-based) old and new line numbers. -/
def numberOps : List DiffOp → Nat → Nat → List (DiffOp × Nat × Nat)
  | [], _, _ => []
  | op :: rest, o, n =>
    match op with
    | .eq _ => (op, o, n) :: numberOps rest (o + 1) (n + 1)
    | .del _ => (op, o, n) :: numberOps rest (o + 1) n
    | .ins _ => (op, o, n) :: numberOps rest o (n + 1)

/-- Take the longest flagged run from the front. -/
def takeFlaggedRun :
    List ((DiffOp × Nat × Nat) × Bool) →
      List (DiffOp × Nat × Nat) × List ((DiffOp × Nat × Nat) × Bool)
  | [] => ([], [])
  | (x, true) :: rest =>
    let (run, left) := takeFlaggedRun rest
    (x :: run, left)
  | l@((_, false) :: _) => ([], l)

/-- Group flagged positions into maximal runs (the hunks). -/
def groupRuns : Nat → List ((DiffOp × Nat × Nat) × Bool) → List (List (DiffOp × Nat × Nat))
  | 0, _ => []
  | _ + 1, [] => []
  | fuel + 1, (_, false) :: rest => groupRuns fuel rest
  | fuel + 1, l@((_, true) :: _) =>
    let (run, left) := takeFlaggedRun l
    run :: groupRuns fuel left

/-- The hunks of the diff of two line lists, with 3 context lines. -/
def diffHunks (o n : List Bytes) : List (List (DiffOp × Nat × Nat)) :=
  let ops := lineDiff o n
  let annotated := numberOps ops 1 1
  let flags := hunkFlags 3 ops
  groupRuns (ops.length + 1) (annotated.zip flags)

def hunkOldStart (run : List (DiffOp × Nat × Nat)) : Nat :=
  match run.headD (DiffOp.eq [], 1, 1) with
  | (_, o, _) => o

def hunkNewStart (run : List (DiffOp × Nat × Nat)) : Nat :=
  match run.headD (DiffOp.eq [], 1, 1) with
  | (_, _, n) => n

def hunkOldLen (run : List (DiffOp × Nat × Nat)) : Nat :=
  (run.filter fun x =>
    match x.1 with
    | .eq _ => true
    | .del _ => true
    | .ins _ => false).length

def hunkNewLen (run : List (DiffOp × Nat × Nat)) : Nat :=
  (run.filter fun x =>
    match x.1 with
    | .eq _ => true
    | .del _ => false
    | .ins _ => true).length

/-- `start,len` of a hunk header; the length is omitted when it is 1. -/
def renderRange (start len : Nat) : Bytes :=
  natDigits start ++ (if len = 1 then [] else asciiB "," ++ natDigits len)

def noNewlineMarker : Bytes := asciiB "\n\\ No newline at end of file\n"

/-- Render one diff line with its `+`/`-`/space marker. -/
def renderOpLine (op : DiffOp) : Bytes :=
  let markByte : Nat :=
    match op with
    | .eq _ => 32
    | .del _ => 45
    | .ins _ => 43
  let l := op.line
  markByte :: l ++ (if l.getLast? = some 10 then [] else noNewlineMarker)

/-- Render one hunk: header line then marked lines. -/
def renderHunk (run : List (DiffOp × Nat × Nat)) : Bytes :=
  asciiB "@@ -" ++ renderRange (hunkOldStart run) (hunkOldLen run) ++
    asciiB " +" ++ renderRange (hunkNewStart run) (hunkNewLen run) ++
    asciiB " @@" ++ [10] ++
    (run.map fun x => renderOpLine x.1).flatten

/-- `diffy::create_patch_bytes(original, modified).to_bytes()`. -/
def createPatchBytes (original modified : Bytes) : Bytes :=
  asciiB "--- original\n+++ modified\n" ++
    ((diffHunks (splitLinesKeep original) (splitLinesKeep modified)).map renderHunk).flatten

/-! ## Environment and effect trace for utils.rs (hubcaps client)

The remote GitHub API is modelled as a structure of response functions; each
embedded operation returns its result together with the list of remote calls it
performed. `none` models a Rust panic (`unwrap` failure). -/

inductive HubcapsErr where
  | rateLimit (resetSecs : Nat)
  | fault (code : Nat) (message : String)
  | other
deriving DecidableEq

/-- A successful `repo.content().file` response, with content already decoded
by the client library. -/
structure HubFile where
  content : Bytes
  sha : String
deriving DecidableEq

structure DirectoryItem where
  path : String
  sha : String
deriving DecidableEq

structure GitBlob where
  content : String
deriving DecidableEq

structure Remote where
  file : String → String → Except HubcapsErr HubFile
  iterDir : String → String → Option (List DirectoryItem)
  blob : String → Option GitBlob

inductive Effect where
  | fetchFile (path branch : String)
  | sleep (secs : Nat)
  | listDir (path branch : String)
  | getBlob (sha : String)
  | createFile (path : String) (content : Bytes) (message : String) (branch : String)
  | updateFile (path : String) (content : Bytes) (message : String) (sha : String)
      (branch : String)
deriving DecidableEq

def Effect.isWrite : Effect → Bool
  | .createFile _ _ _ _ => true
  | .updateFile _ _ _ _ _ => true
  | _ => false

/-- The create/update calls of a trace. -/
def writesOf (effs : List Effect) : List Effect := effs.filter Effect.isWrite

/-- The leading-separator normalization both utils.rs functions apply to
`path` (`path.starts_with('/')` is a first-character test). -/
def normPath (path : String) : String :=
  match path.data with
  | '/' :: _ => path
  | _ => "/" ++ path

/-- `PathBuf::pop` on an absolute path (utils.rs lines 82-83). -/
def pathPop (s : String) : String :=
  let parent := String.intercalate "/" (s.splitOn "/").dropLast
  if parent = "" then "/" else parent

/-- `str::trim_start_matches('/')`. -/
def trimStartSlashes (s : String) : String :=
  String.mk (s.data.dropWhile (fun c => c = '/'))

/-- `String::replace("\n", "")`: for the one-character pattern this removes
every newline character. -/
def removeNewlines (s : String) : String :=
  String.mk (s.data.filter (fun c => c ≠ '\n'))

/-- `get_file_content_from_repo` (utils.rs lines 57-114). Returns the
`(content bytes, sha)` pair and the trace of remote calls and sleeps. -/
def get_file_content_from_repo (remote : Remote) (branch path : String) :
    Option ((Bytes × String) × List Effect) :=
  let file_path := normPath path
  match remote.file file_path branch with
  | .ok file => some ((file.content, file.sha), [.fetchFile file_path branch])
  | .error e =>
    match e with
    | .rateLimit reset =>
      some (([], ""), [.fetchFile file_path branch, .sleep (reset + 5)])
    | .fault _code msg =>
      if strContains msg "too large" then
        let parent := pathPop file_path
        match remote.iterDir parent branch with
        | none => none
        | some items =>
          match items.find? (fun item => trimStartSlashes file_path == item.path) with
          | some item =>
            match remote.blob item.sha with
            | none => none
            | some blob =>
              let v := removeNewlines blob.content
              match base64Decode v with
              | none => none
              | some decoded =>
                match sliceTrim decoded with
                | none => none
                | some trimmed =>
                  some ((trimmed, item.sha),
                    [.fetchFile file_path branch, .listDir parent branch,
                     .getBlob item.sha])
          | none =>
            some (([], ""), [.fetchFile file_path branch, .listDir parent branch])
      else some (([], ""), [.fetchFile file_path branch])
    | .other => some (([], ""), [.fetchFile file_path branch])

def createMessage (fp : String) : String :=
  "Creating file content " ++ fp ++
    " programatically\n\nThis is done from the cio repo utils::create_or_update_file function."

def updateMessage (fp : String) : String :=
  "Updating file content " ++ fp ++
    " programatically\n\nThis is done from the cio repo utils::create_or_update_file function."

/-- The cosmetic-diff suppression test of utils.rs line 145, including the
source's duplicated removed-CreationDate token (checked twice; an added
CreationDate line is never checked). -/
def modDateCheck (str_diff : Bytes) : Bool :=
  containsSeq str_diff (asciiB "-/ModDate") &&
  containsSeq str_diff (asciiB "-/CreationDate") &&
  containsSeq str_diff (asciiB "+/ModDate") &&
  containsSeq str_diff (asciiB "-/CreationDate") &&
  containsSeq str_diff (asciiB "@@ -5,8 +5,8 @@")

/-- `create_or_update_file_in_github_repo` (utils.rs lines 119-200). Returns
the trace of remote calls (the outcome of a write call is ignored by the
source, so only the call itself is recorded). -/
def create_or_update_file_in_github_repo (remote : Remote) (branch path : String)
    (new_content : Bytes) : Option (List Effect) :=
  match sliceTrim new_content with
  | none => none
  | some content =>
    let file_path := normPath path
    match get_file_content_from_repo remote branch path with
    | none => none
    | some ((existing_content, sha), fetchEffects) =>
      if !existing_content.isEmpty || !sha.isEmpty then
        if content = existing_content then some fetchEffects
        else
          let bdiff := createPatchBytes existing_content content
          let str_diff := fromUtf8OrEmpty bdiff
          if modDateCheck str_diff then some fetchEffects
          else
            some (fetchEffects ++
              [.updateFile file_path content (updateMessage file_path) sha branch])
      else
        some (fetchEffects ++
          [.createFile file_path content (createMessage file_path) branch])

/-! ## A faithful-store remote, and running upsert twice (claim C1) -/

/-- A remote state: branch → file path → stored (content, sha). -/
def StoreFn := String → String → Option (Bytes × String)

/-- The remote induced by a store: fetches read the store, directory listing
and blobs are never consulted by the claims that use this model. -/
def storeRemote (store : StoreFn) : Remote where
  file := fun fp br =>
    match store br fp with
    | some (c, s) => .ok ⟨c, s⟩
    | none => .error .other
  iterDir := fun _ _ => some []
  blob := fun _ => none

/-- Apply one effect to the store: a successful write stores the written
content under a remote-assigned sha `newSha`; other effects leave it alone. -/
def applyWrite (newSha : String) (store : StoreFn) : Effect → StoreFn
  | .createFile p c _ br => fun b q => if b = br ∧ q = p then some (c, newSha) else store b q
  | .updateFile p c _ _ br => fun b q => if b = br ∧ q = p then some (c, newSha) else store b q
  | _ => store

def applyEffects (newSha : String) (store : StoreFn) (effs : List Effect) : StoreFn :=
  effs.foldl (applyWrite newSha) store

/-- Call `create_or_update_file_in_github_repo` twice in sequence against a
store-backed remote that only changes through the first call's own writes. -/
def runTwiceUpsert (store : StoreFn) (newSha : String) (branch path : String)
    (x : Bytes) : Option (List Effect × List Effect) :=
  match create_or_update_file_in_github_repo (storeRemote store) branch path x with
  | none => none
  | some eff1 =>
    match create_or_update_file_in_github_repo
        (storeRemote (applyEffects newSha store eff1)) branch path x with
    | none => none
    | some eff2 => some (eff1, eff2)

theorem getFileContent_writes_nil (remote : Remote) (branch path : String)
    (res : Bytes × String) (effs : List Effect)
    (h : get_file_content_from_repo remote branch path = some (res, effs)) :
    writesOf effs = [] := by
  unfold get_file_content_from_repo at h
  dsimp only at h
  repeat' split at h
  all_goals first
  | exact Option.noConfusion h
  | (simp only [Option.some.injEq, Prod.mk.injEq] at h
     obtain ⟨-, rfl⟩ := h
     rfl)

/-- Claim C2: every single upsert invocation issues at most one remote write
call --- exactly one create, or exactly one update, or none; never both and
never more than one. -/
theorem upsert_zero_or_one_write (remote : Remote) (branch path : String)
    (new_content : Bytes) (effs : List Effect)
    (h : create_or_update_file_in_github_repo remote branch path new_content = some effs) :
    writesOf effs = [] ∨
      (∃ c m, writesOf effs = [Effect.createFile (normPath path) c m branch]) ∨
      (∃ c m s, writesOf effs = [Effect.updateFile (normPath path) c m s branch]) := by
  unfold create_or_update_file_in_github_repo at h
  dsimp only at h
  cases hs : sliceTrim new_content with
  | none => rw [hs] at h; exact Option.noConfusion h
  | some content =>
    rw [hs] at h
    cases hf : get_file_content_from_repo remote branch path with
    | none => rw [hf] at h; exact Option.noConfusion h
    | some r =>
      obtain ⟨⟨existing, sha⟩, fe⟩ := r
      rw [hf] at h
      have hfe : writesOf fe = [] :=
        getFileContent_writes_nil remote branch path (existing, sha) fe hf
      dsimp only at h
      by_cases h1 : (!existing.isEmpty || !sha.isEmpty) = true
      · rw [if_pos h1] at h
        by_cases h2 : content = existing
        · rw [if_pos h2] at h
          injection h with h'
          subst h'
          exact Or.inl hfe
        · rw [if_neg h2] at h
          by_cases h3 : modDateCheck (fromUtf8OrEmpty (createPatchBytes existing content)) = true
          · rw [if_pos h3] at h
            injection h with h'
            subst h'
            exact Or.inl hfe
          · rw [if_neg h3] at h
            injection h with h'
            subst h'
            refine Or.inr (Or.inr ⟨content, updateMessage (normPath path), sha, ?_⟩)
            simp only [writesOf, List.filter_append] at hfe ⊢
            rw [hfe]
            rfl
      · rw [if_neg h1] at h
        injection h with h'
        subst h'
        refine Or.inr (Or.inl ⟨content, createMessage (normPath path), ?_⟩)
        simp only [writesOf, List.filter_append] at hfe ⊢
        rw [hfe]
        rfl

/-- Closed witness for claim C2 at a concrete remote without the file. -/
def emptyRemote : Remote where
  file := fun _ _ => .error .other
  iterDir := fun _ _ => none
  blob := fun _ => none

theorem upsert_zero_or_one_write_witness :
    create_or_update_file_in_github_repo emptyRemote "b" "p" [65] =
      some [Effect.fetchFile "/p" "b",
        Effect.createFile "/p" [65] (createMessage "/p") "b"] ∧
    (writesOf [Effect.fetchFile "/p" "b",
        Effect.createFile "/p" [65] (createMessage "/p") "b"] = [] ∨
      (∃ c m, writesOf [Effect.fetchFile "/p" "b",
        Effect.createFile "/p" [65] (createMessage "/p") "b"] =
          [Effect.createFile (normPath "p") c m "b"]) ∨
      (∃ c m s, writesOf [Effect.fetchFile "/p" "b",
        Effect.createFile "/p" [65] (createMessage "/p") "b"] =
          [Effect.updateFile (normPath "p") c m s "b"])) :=
  ⟨rfl, upsert_zero_or_one_write emptyRemote "b" "p" [65] _ rfl⟩

/-- Claim C4: a rate-limited fetch sleeps for the server-indicated reset
interval plus a fixed 5 seconds, then returns the empty sentinel without
retrying the fetch (the trace holds exactly one fetch call). -/
theorem fetch_rate_limit_sleeps_no_retry (remote : Remote) (branch path : String)
    (reset : Nat)
    (h : remote.file (normPath path) branch = .error (.rateLimit reset)) :
    get_file_content_from_repo remote branch path =
      some (([], ""), [.fetchFile (normPath path) branch, .sleep (reset + 5)]) := by
  simp [get_file_content_from_repo, h]

def rateLimitRemote : Remote where
  file := fun _ _ => .error (.rateLimit 30)
  iterDir := fun _ _ => none
  blob := fun _ => none

theorem fetch_rate_limit_witness :
    rateLimitRemote.file (normPath "/x") "b" = .error (.rateLimit 30) ∧
    get_file_content_from_repo rateLimitRemote "b" "/x" =
      some (([], ""), [.fetchFile (normPath "/x") "b", .sleep (30 + 5)]) :=
  ⟨rfl, fetch_rate_limit_sleeps_no_retry rateLimitRemote "b" "/x" 30 rfl⟩

/-- Claim C5: when the get-content-file call fails with a payload-too-large
fault, the fetch lists the parent directory on the same branch, locates the
entry whose path equals the requested path with the leading separator
stripped, retrieves that entry's blob by its sha, base64-decodes it, strips
leading and trailing tab/space bytes (not newlines), and returns those bytes
with the entry's sha. -/
theorem fetch_too_large_blob_fallback (remote : Remote) (branch path : String)
    (code : Nat) (msg : String) (items : List DirectoryItem) (item : DirectoryItem)
    (blob : GitBlob) (decoded : Bytes)
    (hf : remote.file (normPath path) branch = .error (.fault code msg))
    (hmsg : strContains msg "too large" = true)
    (hdir : remote.iterDir (pathPop (normPath path)) branch = some items)
    (hfind : items.find? (fun it => trimStartSlashes (normPath path) == it.path) = some item)
    (hblob : remote.blob item.sha = some blob)
    (hdec : base64Decode (removeNewlines blob.content) = some decoded) :
    get_file_content_from_repo remote branch path =
      some ((trimSpec decoded, item.sha),
        [.fetchFile (normPath path) branch, .listDir (pathPop (normPath path)) branch,
         .getBlob item.sha]) := by
  unfold get_file_content_from_repo
  simp only [hf, hmsg, hdir, hfind, hblob, hdec, sliceTrim_eq, if_true]

def tooLargeRemote : Remote where
  file := fun _ _ => .error (.fault 403 "this file is too large to fetch")
  iterDir := fun _ _ => some [⟨"a/b.pdf", "blobsha"⟩]
  blob := fun _ => some ⟨"CUFCQyA=\n"⟩

theorem fetch_too_large_blob_fallback_witness :
    tooLargeRemote.file (normPath "/a/b.pdf") "br" =
        .error (.fault 403 "this file is too large to fetch") ∧
    strContains "this file is too large to fetch" "too large" = true ∧
    base64Decode (removeNewlines "CUFCQyA=\n") = some [9, 65, 66, 67, 32] ∧
    get_file_content_from_repo tooLargeRemote "br" "/a/b.pdf" =
      some ((trimSpec [9, 65, 66, 67, 32], "blobsha"),
        [.fetchFile (normPath "/a/b.pdf") "br",
         .listDir (pathPop (normPath "/a/b.pdf")) "br", .getBlob "blobsha"]) :=
  ⟨rfl, by decide,
   by decide,
   fetch_too_large_blob_fallback tooLargeRemote "br" "/a/b.pdf" 403
     "this file is too large to fetch" [⟨"a/b.pdf", "blobsha"⟩] ⟨"a/b.pdf", "blobsha"⟩
     ⟨"CUFCQyA=\n"⟩ [9, 65, 66, 67, 32] rfl (by decide) rfl (by decide) rfl (by decide)⟩

/-- Result of a store-backed fetch: the stored pair, or the empty sentinel. -/
def storeLookup (store : StoreFn) (branch path : String) : Bytes × String :=
  match store branch (normPath path) with
  | some (c, s) => (c, s)
  | none => ([], "")

theorem getFileContent_store (store : StoreFn) (branch path : String) :
    get_file_content_from_repo (storeRemote store) branch path =
      some (storeLookup store branch path, [Effect.fetchFile (normPath path) branch]) := by
  cases h : store branch (normPath path) with
  | none => simp [get_file_content_from_repo, storeRemote, storeLookup, h]
  | some cs =>
    obtain ⟨c, s⟩ := cs
    simp [get_file_content_from_repo, storeRemote, storeLookup, h]

/-- The effect trace of one upsert against a store-backed remote, spelled out
case by case. -/
def upsertStoreSpec (store : StoreFn) (branch path : String) (x : Bytes) : List Effect :=
  let fp := normPath path
  let content := trimSpec x
  match store branch fp with
  | none => [.fetchFile fp branch, .createFile fp content (createMessage fp) branch]
  | some (c, s) =>
    if !c.isEmpty || !s.isEmpty then
      if content = c then [.fetchFile fp branch]
      else if modDateCheck (fromUtf8OrEmpty (createPatchBytes c content)) then
        [.fetchFile fp branch]
      else [.fetchFile fp branch, .updateFile fp content (updateMessage fp) s branch]
    else [.fetchFile fp branch, .createFile fp content (createMessage fp) branch]

theorem emptyString_isEmpty : ("" : String).isEmpty = true := rfl

theorem upsert_store_eval (store : StoreFn) (branch path : String) (x : Bytes) :
    create_or_update_file_in_github_repo (storeRemote store) branch path x =
      some (upsertStoreSpec store branch path x) := by
  unfold create_or_update_file_in_github_repo
  rw [sliceTrim_eq, getFileContent_store]
  dsimp only
  unfold upsertStoreSpec
  cases h : store branch (normPath path) with
  | none => simp [storeLookup, h, emptyString_isEmpty]
  | some cs =>
    obtain ⟨c, s⟩ := cs
    simp only [storeLookup, h]
    by_cases h1 : (!c.isEmpty || !s.isEmpty) = true
    · by_cases h2 : trimSpec x = c
      · simp [h1, h2]
      · by_cases h3 : modDateCheck (fromUtf8OrEmpty (createPatchBytes c (trimSpec x))) = true
        · simp [h1, h2, h3]
        · simp [h1, h2, h3]
    · simp [h1]

theorem upsertStoreSpec_writes_le_one (store : StoreFn) (branch path : String)
    (x : Bytes) : (writesOf (upsertStoreSpec store branch path x)).length ≤ 1 := by
  unfold upsertStoreSpec
  cases h : store branch (normPath path) with
  | none => simp [h, writesOf, Effect.isWrite]
  | some cs =>
    obtain ⟨c, s⟩ := cs
    simp only [h]
    repeat' split
    all_goals simp [writesOf, Effect.isWrite]

theorem upsertStoreSpec_second_no_writes (store : StoreFn) (newSha : String)
    (branch path : String) (x : Bytes) (hsha : newSha.isEmpty = false) :
    writesOf (upsertStoreSpec
      (applyEffects newSha store (upsertStoreSpec store branch path x))
      branch path x) = [] := by
  unfold upsertStoreSpec
  cases h : store branch (normPath path) with
  | none =>
    simp [h, applyEffects, applyWrite, hsha, writesOf, Effect.isWrite]
  | some cs =>
    obtain ⟨c, s⟩ := cs
    simp only [h]
    by_cases h1 : (!c.isEmpty || !s.isEmpty) = true
    · by_cases h2 : trimSpec x = c
      · rw [if_pos h1, if_pos h2]
        simp [applyEffects, applyWrite, h, h1, h2, writesOf, Effect.isWrite]
      · by_cases h3 : modDateCheck (fromUtf8OrEmpty (createPatchBytes c (trimSpec x))) = true
        · rw [if_pos h1, if_neg h2, if_pos h3]
          simp [applyEffects, applyWrite, h, h1, h2, h3, writesOf, Effect.isWrite]
        · rw [if_pos h1, if_neg h2, if_neg h3]
          simp [applyEffects, applyWrite, hsha, writesOf, Effect.isWrite]
    · rw [if_neg h1]
      simp [applyEffects, applyWrite, hsha, writesOf, Effect.isWrite]


/-- Claim C1 (amended): two upserts of the same content against a store-backed
remote, the second seeing exactly the first one's writes, perform at most one
write in total; the second call performs no write at all. -/
theorem upsert_twice_at_most_one_write (store : StoreFn) (newSha : String)
    (branch path : String) (x : Bytes) (hsha : newSha.isEmpty = false) :
    ∃ eff1 eff2,
      runTwiceUpsert store newSha branch path x = some (eff1, eff2) ∧
      writesOf eff2 = [] ∧
      (writesOf eff1).length + (writesOf eff2).length ≤ 1 := by
  refine ⟨upsertStoreSpec store branch path x,
    upsertStoreSpec (applyEffects newSha store (upsertStoreSpec store branch path x))
      branch path x, ?_, ?_, ?_⟩
  · unfold runTwiceUpsert
    rw [upsert_store_eval]
    dsimp only
    rw [upsert_store_eval]
  · exact upsertStoreSpec_second_no_writes store newSha branch path x hsha
  · rw [upsertStoreSpec_second_no_writes store newSha branch path x hsha]
    simpa using upsertStoreSpec_writes_le_one store branch path x

/-- A store that already holds the trimmed content at the target path. -/
def convergedStore : StoreFn := fun br p =>
  if br = "b" ∧ p = "/a" then some ([65], "s") else none

/-- Counterexample to claim C1 as stated: against a remote that already holds
the content, two upserts in sequence perform zero writes in total, not exactly
one. -/
theorem upsert_twice_counterexample :
    runTwiceUpsert convergedStore "sha2" "b" "/a" [65] =
      some ([Effect.fetchFile "/a" "b"], [Effect.fetchFile "/a" "b"]) ∧
    ¬ ((writesOf [Effect.fetchFile "/a" "b"]).length +
        (writesOf [Effect.fetchFile "/a" "b"]).length = 1) := by
  refine ⟨?_, by decide⟩
  rfl

theorem upsert_twice_at_most_one_write_witness :
    ("sha2" : String).isEmpty = false ∧
    (∃ eff1 eff2,
      runTwiceUpsert (fun _ _ => none) "sha2" "b" "/a" [65] = some (eff1, eff2) ∧
      writesOf eff2 = [] ∧
      (writesOf eff1).length + (writesOf eff2).length ≤ 1) :=
  ⟨rfl, upsert_twice_at_most_one_write (fun _ _ => none) "sha2" "b" "/a" [65] rfl⟩

/-! ## Claim C3: cosmetic-diff suppression -/

/-- The claim's description of the cosmetic diff, for the refinement
comparison: the textual diff consists of exactly one hunk, at the fixed header
position `-5,8 +5,8`, whose removed lines are one ModDate line and one
CreationDate line and whose only added line is a replacement ModDate line. -/
def cosmeticOnlyDiff (original modified : Bytes) : Bool :=
  match diffHunks (splitLinesKeep original) (splitLinesKeep modified) with
  | [run] =>
    hunkOldStart run = 5 && hunkOldLen run = 8 &&
    hunkNewStart run = 5 && hunkNewLen run = 8 &&
    (let dels := run.filterMap fun y => match y.1 with | .del l => some l | _ => none
     let inss := run.filterMap fun y => match y.1 with | .ins l => some l | _ => none
     match dels, inss with
     | [d1, d2], [i1] =>
       (asciiB "/ModDate").isPrefixOf d1 && (asciiB "/CreationDate").isPrefixOf d2 &&
         (asciiB "/ModDate").isPrefixOf i1
     | _, _ => false)
  | _ => false

/-- Existing bytes whose diff against `exNew` has the cosmetic ModDate hunk at
the fixed position AND a second, substantive hunk further down. -/
def exOld : Bytes := asciiB
  "a1\na2\na3\na4\na5\na6\na7\n/ModDate 1\n/CreationDate 1\nb1\nb2\nb3\nb4\nb5\nb6\nb7\nb8\nb9\nb10\nX\nt1\nt2\nt3\n"

def exNew : Bytes := asciiB
  "a1\na2\na3\na4\na5\na6\na7\n/ModDate 2\n/CreationDate 2\nb1\nb2\nb3\nb4\nb5\nb6\nb7\nb8\nb9\nb10\nY\nt1\nt2\nt3\n"

def c3Remote : Remote where
  file := fun _ _ => .ok ⟨exOld, "sha1"⟩
  iterDir := fun _ _ => none
  blob := fun _ => none

/-- Counterexample to claim C3 as stated: the fetched file is non-sentinel, the
trimmed bytes differ, and the diff is NOT exactly one cosmetic hunk (it has a
second, substantive hunk) --- yet upsert performs zero writes, because the
source only tests substring containment on the patch text. -/
theorem cosmetic_suppression_counterexample :
    create_or_update_file_in_github_repo c3Remote "b" "/f.pdf" exNew =
      some [Effect.fetchFile "/f.pdf" "b"] ∧
    trimSpec exNew = exNew ∧ exNew ≠ exOld ∧
    cosmeticOnlyDiff exOld exNew = false := by
  refine ⟨?_, by decide, by decide, by decide⟩
  rfl

/-- Claim C3 (amended): for a non-sentinel existing file with bytes differing
from the trimmed new bytes, upsert performs zero writes iff the patch text
contains the substrings checked by the source (removed ModDate, removed
CreationDate, added ModDate, and the header `@@ -5,8 +5,8 @@`); with any other
diff it issues exactly one update-file call carrying the existing sha. -/
theorem cosmetic_suppression_amended (remote : Remote) (branch path : String)
    (x content existing : Bytes) (sha : String) (fe : List Effect)
    (hx : sliceTrim x = some content)
    (hf : get_file_content_from_repo remote branch path = some ((existing, sha), fe))
    (hne : (!existing.isEmpty || !sha.isEmpty) = true)
    (hdiff : content ≠ existing) :
    create_or_update_file_in_github_repo remote branch path x =
      some (if modDateCheck (fromUtf8OrEmpty (createPatchBytes existing content)) then fe
            else fe ++ [Effect.updateFile (normPath path) content
              (updateMessage (normPath path)) sha branch]) := by
  unfold create_or_update_file_in_github_repo
  rw [hx, hf]
  dsimp only
  rw [if_pos hne, if_neg hdiff]
  by_cases hm : modDateCheck (fromUtf8OrEmpty (createPatchBytes existing content)) = true
  · rw [if_pos hm, if_pos hm]
  · rw [if_neg hm, if_neg hm]

/-- A PDF-like file pair differing only in the ModDate/CreationDate lines at
the fixed header position. -/
def pdfOld : Bytes := asciiB
  "h1\nh2\nh3\nh4\nh5\nh6\nh7\n/ModDate 1\n/CreationDate 1\nh10\nh11\nh12\nh13\n"

def pdfNew : Bytes := asciiB
  "h1\nh2\nh3\nh4\nh5\nh6\nh7\n/ModDate 2\n/CreationDate 2\nh10\nh11\nh12\nh13\n"

def c3WitnessRemote : Remote where
  file := fun _ _ => .ok ⟨pdfOld, "psha"⟩
  iterDir := fun _ _ => none
  blob := fun _ => none

theorem cosmetic_suppression_amended_witness :
    sliceTrim pdfNew = some pdfNew ∧
    get_file_content_from_repo c3WitnessRemote "b" "/p.pdf" =
      some ((pdfOld, "psha"), [Effect.fetchFile "/p.pdf" "b"]) ∧
    pdfNew ≠ pdfOld ∧
    modDateCheck (fromUtf8OrEmpty (createPatchBytes pdfOld pdfNew)) = true ∧
    create_or_update_file_in_github_repo c3WitnessRemote "b" "/p.pdf" pdfNew =
      some (if modDateCheck (fromUtf8OrEmpty (createPatchBytes pdfOld pdfNew))
            then [Effect.fetchFile "/p.pdf" "b"]
            else [Effect.fetchFile "/p.pdf" "b"] ++
              [Effect.updateFile (normPath "/p.pdf") pdfNew
                (updateMessage (normPath "/p.pdf")) "psha" "b"]) :=
  ⟨by decide, rfl, by decide, by decide,
   cosmetic_suppression_amended c3WitnessRemote "b" "/p.pdf" pdfNew pdfNew pdfOld
     "psha" [Effect.fetchFile "/p.pdf" "b"] (by decide) rfl (by decide) (by decide)⟩

/-! ## rfd/github.rs: octorust environment and data model

The octorust client handle held by `GitHubRFDRepo`/`GitHubRFDBranch` is
modelled as an explicit environment argument; the remaining fields are kept. -/

structure OctoErr where
  message : String
deriving DecidableEq

/-- The octorust content-file response (the fields the source uses). -/
structure ContentFile where
  name : String
  path : String
  type_ : String
  content : String
  sha : String
  html_url : String
deriving DecidableEq

/-- One entry of an octorust directory listing (the fields the source uses). -/
structure ContentEntry where
  name : String
  path : String
  type_ : String
deriving DecidableEq

/-- The octorust remote calls made by rfd/github.rs. `getGithubFile` and
`getFileContent` stand for `crate::utils` helpers whose bodies are not part of
this repository snapshot; modelled from the spec as opaque environment calls
(`getGithubFile`: fetch the content file for a listed entry; `getFileContent`:
ContentFetcher returning bytes and revisionId, spec section 4.1). -/
structure OctoEnv where
  getContentFile : String → String → String → String → Except OctoErr ContentFile
  getContentVecEntries : String → String → String → String → Except OctoErr (List ContentEntry)
  getGithubFile : String → String → String → ContentEntry → Except OctoErr ContentFile
  getFileContent : String → String → String → String → Except OctoErr (Bytes × String)

/-- Decimal rendering of naturals/integers built on `natDigits`. -/
def natToString (n : Nat) : String := String.mk ((natDigits n).map Char.ofNat)

def intToString (i : Int) : String :=
  if i < 0 then "-" ++ natToString i.natAbs else natToString i.natAbs

/-- Modelled from the spec: DocumentNumber, the integer identifier of a
document (rows carry `num: i32`). -/
structure RFDNumber where
  num : Int
deriving DecidableEq

/-- Modelled from the spec: the deterministic, injective mapping from a
document number to its canonical repository directory (fixed zero-padded
numeric convention under the document root). -/
def RFDNumber.repo_directory (n : RFDNumber) : String :=
  let s := intToString n.num
  "rfd/" ++ String.mk (List.replicate (4 - s.data.length) '0') ++ s

/-- Modelled from the spec (section 4.8): the decimal string form of the
document number. -/
def RFDNumber.as_number_string (n : RFDNumber) : String := intToString n.num

/-- Modelled from the spec: DocumentContent, a tagged variant with the two
markup dialects; the tag is decided by which filename resolved. -/
inductive RFDContent where
  | asciidoc (text : String)
  | markdown (text : String)
deriving DecidableEq

def RFDContent.new_asciidoc (s : String) : RFDContent := .asciidoc s

def RFDContent.new_markdown (s : String) : RFDContent := .markdown s

/-- Modelled from the spec: decode the remote's base64 content encoding to
text (the `decode_base64_to_string` helper is not part of this snapshot). -/
def decode_base64_to_string (s : String) : String :=
  match base64Decode (removeNewlines s) with
  | some bs => String.mk (bs.map Char.ofNat)
  | none => ""

/-- `GitHubRFDBranch` without the shared client handle. -/
structure GitHubRFDBranchData where
  owner : String
  repo : String
  default_branch : String
  branch : String
deriving DecidableEq

structure GitHubRFDReadmeLocation where
  file : String
  branch : GitHubRFDBranchData
deriving DecidableEq

structure GitHubRFDReadme where
  content : RFDContent
  link : String
  sha : String
  location : GitHubRFDReadmeLocation
deriving DecidableEq

/-- `GitHubRFDBranch::get_readme_contents` (rfd/github.rs lines 144-216). -/
def get_readme_contents (env : OctoEnv) (b : GitHubRFDBranchData)
    (rfd_number : RFDNumber) : Except OctoErr GitHubRFDReadme :=
  let dir := rfd_number.repo_directory
  let path := dir ++ "/README.adoc"
  let content_file := env.getContentFile b.owner b.repo path b.branch
  match content_file with
  | .ok f =>
    let decoded := decode_base64_to_string f.content
    .ok { content := RFDContent.new_asciidoc decoded, link := f.html_url, sha := f.sha,
          location := { file := path, branch := b } }
  | .error _ =>
    let md_path := dir ++ "/README.md"
    match env.getContentFile b.owner b.repo md_path b.branch with
    | .error e => .error e
    | .ok f =>
      let decoded := decode_base64_to_string f.content
      .ok { content := RFDContent.new_markdown decoded, link := f.html_url, sha := f.sha,
            location := { file := md_path, branch := b } }

/-- Claim C6: resolveReadme first attempts `<dir>/README.adoc` and on success
returns AsciiDoc-tagged content; on failure it attempts `<dir>/README.md` and
on success returns Markdown-tagged content without error; when both fetches
fail it propagates the second (Markdown) failure. -/
theorem readme_format_fallback (env : OctoEnv) (b : GitHubRFDBranchData)
    (n : RFDNumber) :
    (∀ f, env.getContentFile b.owner b.repo (n.repo_directory ++ "/README.adoc")
        b.branch = .ok f →
      get_readme_contents env b n = .ok
        { content := RFDContent.new_asciidoc (decode_base64_to_string f.content),
          link := f.html_url, sha := f.sha,
          location := { file := n.repo_directory ++ "/README.adoc", branch := b } }) ∧
    (∀ e f, env.getContentFile b.owner b.repo (n.repo_directory ++ "/README.adoc")
        b.branch = .error e →
      env.getContentFile b.owner b.repo (n.repo_directory ++ "/README.md")
        b.branch = .ok f →
      get_readme_contents env b n = .ok
        { content := RFDContent.new_markdown (decode_base64_to_string f.content),
          link := f.html_url, sha := f.sha,
          location := { file := n.repo_directory ++ "/README.md", branch := b } }) ∧
    (∀ e e2, env.getContentFile b.owner b.repo (n.repo_directory ++ "/README.adoc")
        b.branch = .error e →
      env.getContentFile b.owner b.repo (n.repo_directory ++ "/README.md")
        b.branch = .error e2 →
      get_readme_contents env b n = .error e2) := by
  refine ⟨?_, ?_, ?_⟩
  · intro f hf
    unfold get_readme_contents
    dsimp only
    rw [hf]
  · intro e f he hf
    unfold get_readme_contents
    dsimp only
    rw [he, hf]
  · intro e e2 he he2
    unfold get_readme_contents
    dsimp only
    rw [he, he2]

/-- A remote where only the Markdown README exists. -/
def mdOnlyEnv : OctoEnv where
  getContentFile := fun _ _ p _ =>
    if p = "rfd/0007/README.md" then
      .ok ⟨"README.md", "rfd/0007/README.md", "file", "SGk=", "mdsha", "mdurl"⟩
    else .error ⟨"Not Found"⟩
  getContentVecEntries := fun _ _ _ _ => .error ⟨"nf"⟩
  getGithubFile := fun _ _ _ _ => .error ⟨"nf"⟩
  getFileContent := fun _ _ _ _ => .error ⟨"nf"⟩

theorem readme_format_fallback_witness :
    mdOnlyEnv.getContentFile "o" "rfd"
        ((⟨7⟩ : RFDNumber).repo_directory ++ "/README.adoc") "3" = .error ⟨"Not Found"⟩ ∧
    mdOnlyEnv.getContentFile "o" "rfd"
        ((⟨7⟩ : RFDNumber).repo_directory ++ "/README.md") "3" =
      .ok ⟨"README.md", "rfd/0007/README.md", "file", "SGk=", "mdsha", "mdurl"⟩ ∧
    get_readme_contents mdOnlyEnv ⟨"o", "rfd", "master", "3"⟩ ⟨7⟩ = .ok
      { content := RFDContent.new_markdown (decode_base64_to_string "SGk="),
        link := "mdurl", sha := "mdsha",
        location :=
          { file := (⟨7⟩ : RFDNumber).repo_directory ++ "/README.md",
            branch := ⟨"o", "rfd", "master", "3"⟩ } } :=
  ⟨by decide,
   by decide,
   (readme_format_fallback mdOnlyEnv ⟨"o", "rfd", "master", "3"⟩ ⟨7⟩).2.1 ⟨"Not Found"⟩
     ⟨"README.md", "rfd/0007/README.md", "file", "SGk=", "mdsha", "mdurl"⟩
     (by decide) (by decide)⟩

/-! ## `GitHubRFDBranch::get_images` (rfd/github.rs lines 258-314) -/

/-- Modelled from the spec: the recognized image extensions form a fixed
allow-list matched against the filename (the `is_image` helper is not part of
this snapshot; the spec's examples include `.png` files). -/
def is_image (name : String) : Bool :=
  [".png", ".jpg", ".jpeg", ".svg", ".gif"].any fun ext => ext.data.isSuffixOf name.data

/-- `str::trim_end_matches('/')`. -/
def trimEndSlashes (s : String) : String :=
  String.mk (s.data.reverse.dropWhile (fun c => c = '/')).reverse

/-- The inner loop of `get_images` over the entries of a first-level
directory: second-level directories are skipped (with a warning), image files
are fetched and appended. -/
def processInner (env : OctoEnv) (b : GitHubRFDBranchData) :
    List ContentEntry → List ContentFile → Except OctoErr (List ContentFile)
  | [], files => .ok files
  | file2 :: rest, files =>
    if file2.type_ = "dir" then processInner env b rest files
    else if is_image file2.name then
      match env.getGithubFile b.owner b.repo b.branch file2 with
      | .error e => .error e
      | .ok f => processInner env b rest (files ++ [f])
    else processInner env b rest files

/-- The outer loop of `get_images` over the top-level entries: a directory is
listed and processed by the inner loop, then the entry's own image check runs. -/
def processOuter (env : OctoEnv) (b : GitHubRFDBranchData) :
    List ContentEntry → List ContentFile → Except OctoErr (List ContentFile)
  | [], files => .ok files
  | file :: rest, files =>
    let afterDir : Except OctoErr (List ContentFile) :=
      if file.type_ = "dir" then
        match env.getContentVecEntries b.owner b.repo (trimEndSlashes file.path)
            b.branch with
        | .error e => .error e
        | .ok resp2 => processInner env b resp2 files
      else .ok files
    match afterDir with
    | .error e => .error e
    | .ok files2 =>
      if is_image file.name then
        match env.getGithubFile b.owner b.repo b.branch file with
        | .error e => .error e
        | .ok f => processOuter env b rest (files2 ++ [f])
      else processOuter env b rest files2

def get_images (env : OctoEnv) (b : GitHubRFDBranchData) (rfd_number : RFDNumber) :
    Except OctoErr (List ContentFile) :=
  match env.getContentVecEntries b.owner b.repo rfd_number.repo_directory b.branch with
  | .error e => .error e
  | .ok resp => processOuter env b resp []

/-- What one first-level directory contributes: its non-directory image
children, in listing order. -/
def innerImagesSpec (toFile : ContentEntry → ContentFile)
    (entries : List ContentEntry) : List ContentFile :=
  entries.filterMap fun e2 =>
    if e2.type_ ≠ "dir" ∧ is_image e2.name = true then some (toFile e2) else none

/-- What the whole walk collects: depth-1 and depth-2 images only, inner
entries before the entry's own check, nothing below depth 2. -/
def imagesSpec (toFile : ContentEntry → ContentFile) (sub : ContentEntry → List ContentEntry)
    (entries : List ContentEntry) : List ContentFile :=
  entries.flatMap fun e =>
    (if e.type_ = "dir" then innerImagesSpec toFile (sub e) else []) ++
      (if is_image e.name then [toFile e] else [])

theorem processInner_eval (env : OctoEnv) (b : GitHubRFDBranchData)
    (toFile : ContentEntry → ContentFile)
    (hfetch : ∀ e, env.getGithubFile b.owner b.repo b.branch e = .ok (toFile e))
    (l : List ContentEntry) (files : List ContentFile) :
    processInner env b l files = .ok (files ++ innerImagesSpec toFile l) := by
  induction l generalizing files with
  | nil => simp [processInner, innerImagesSpec]
  | cons e2 rest ih =>
    by_cases hd : e2.type_ = "dir"
    · simp [processInner, hd, ih, innerImagesSpec]
    · by_cases him : is_image e2.name = true
      · simp [processInner, hd, him, hfetch e2, ih, innerImagesSpec]
      · simp [processInner, hd, him, ih, innerImagesSpec]

theorem processOuter_eval (env : OctoEnv) (b : GitHubRFDBranchData)
    (toFile : ContentEntry → ContentFile) (sub : ContentEntry → List ContentEntry)
    (hfetch : ∀ e, env.getGithubFile b.owner b.repo b.branch e = .ok (toFile e))
    (l : List ContentEntry)
    (hsub : ∀ e ∈ l, e.type_ = "dir" →
      env.getContentVecEntries b.owner b.repo (trimEndSlashes e.path) b.branch =
        .ok (sub e))
    (files : List ContentFile) :
    processOuter env b l files = .ok (files ++ imagesSpec toFile sub l) := by
  induction l generalizing files with
  | nil => simp [processOuter, imagesSpec]
  | cons e rest ih =>
    have hsubrest : ∀ x ∈ rest, x.type_ = "dir" →
        env.getContentVecEntries b.owner b.repo (trimEndSlashes x.path) b.branch =
          .ok (sub x) := fun x hx => hsub x (List.mem_cons_of_mem e hx)
    by_cases hd : e.type_ = "dir"
    · have hse := hsub e (List.mem_cons_self e rest) hd
      by_cases him : is_image e.name = true
      · simp [processOuter, hd, him, hse, hfetch e,
          processInner_eval env b toFile hfetch, ih hsubrest, imagesSpec]
      · simp [processOuter, hd, him, hse,
          processInner_eval env b toFile hfetch, ih hsubrest, imagesSpec]
    · by_cases him : is_image e.name = true
      · simp [processOuter, hd, him, hfetch e, ih hsubrest, imagesSpec]
      · simp [processOuter, hd, him, ih hsubrest, imagesSpec]

/-- Claim C7: the walk collects exactly the recognized images at depth 1 and
the non-directory recognized images at depth 2 (each depth-2 directory entry
contributes nothing and is never descended into), in traversal order. -/
theorem images_depth_limited (env : OctoEnv) (b : GitHubRFDBranchData)
    (n : RFDNumber) (entries : List ContentEntry)
    (toFile : ContentEntry → ContentFile) (sub : ContentEntry → List ContentEntry)
    (htop : env.getContentVecEntries b.owner b.repo n.repo_directory b.branch =
      .ok entries)
    (hsub : ∀ e ∈ entries, e.type_ = "dir" →
      env.getContentVecEntries b.owner b.repo (trimEndSlashes e.path) b.branch =
        .ok (sub e))
    (hfetch : ∀ e, env.getGithubFile b.owner b.repo b.branch e = .ok (toFile e)) :
    get_images env b n = .ok (imagesSpec toFile sub entries) := by
  unfold get_images
  rw [htop]
  dsimp only
  have := processOuter_eval env b toFile sub hfetch entries hsub []
  simpa using this

/-- The spec's depth example: an image at depth 1, a subdirectory with an
image and a deeper directory at depth 2, and an image at depth 3. -/
def c7TopEntries : List ContentEntry :=
  [⟨"img.png", "rfd/0001/img.png", "file"⟩, ⟨"sub", "rfd/0001/sub", "dir"⟩]

def c7SubEntries : List ContentEntry :=
  [⟨"img2.png", "rfd/0001/sub/img2.png", "file"⟩, ⟨"deeper", "rfd/0001/sub/deeper", "dir"⟩]

def c7ToFile (e : ContentEntry) : ContentFile := ⟨e.name, e.path, e.type_, "c", "s", "u"⟩

def c7Sub (e : ContentEntry) : List ContentEntry :=
  if e.path = "rfd/0001/sub" then c7SubEntries
  else [⟨"img3.png", "rfd/0001/sub/deeper/img3.png", "file"⟩]

def c7Env : OctoEnv where
  getContentFile := fun _ _ _ _ => .error ⟨"nf"⟩
  getContentVecEntries := fun _ _ p _ =>
    if p = "rfd/0001" then .ok c7TopEntries
    else if p = "rfd/0001/sub" then .ok c7SubEntries
    else .ok [⟨"img3.png", "rfd/0001/sub/deeper/img3.png", "file"⟩]
  getGithubFile := fun _ _ _ e => .ok (c7ToFile e)
  getFileContent := fun _ _ _ _ => .error ⟨"nf"⟩

theorem images_depth_limited_witness :
    c7Env.getContentVecEntries "o" "rfd"
        ((⟨1⟩ : RFDNumber).repo_directory) "3" = .ok c7TopEntries ∧
    get_images c7Env ⟨"o", "rfd", "master", "3"⟩ ⟨1⟩ =
      .ok [⟨"img.png", "rfd/0001/img.png", "file", "c", "s", "u"⟩,
           ⟨"img2.png", "rfd/0001/sub/img2.png", "file", "c", "s", "u"⟩] :=
  ⟨by decide,
   (images_depth_limited c7Env ⟨"o", "rfd", "master", "3"⟩ ⟨1⟩ c7TopEntries
       c7ToFile c7Sub (by decide) (by decide) (fun e => rfl)).trans (by decide)⟩

/-- A directory entry whose name carries an image extension. -/
def dirPngEntry : ContentEntry := ⟨"x.png", "rfd/0001/x.png", "dir"⟩

def dirPngFile : ContentFile := ⟨"x.png", "rfd/0001/x.png", "dir", "", "fsha", "furl"⟩

def c8Env : OctoEnv where
  getContentFile := fun _ _ _ _ => .error ⟨"nf"⟩
  getContentVecEntries := fun _ _ p _ =>
    if p = "rfd/0001" then .ok [dirPngEntry] else .ok []
  getGithubFile := fun _ _ _ _ => .ok dirPngFile
  getFileContent := fun _ _ _ _ => .error ⟨"nf"⟩

/-- Counterexample to claim C8 as stated: a directory entry whose name matches
a recognized image extension IS fetched and appended by the entry's own image
check, because `is_image` tests only the filename, never the entry kind. -/
theorem images_dir_entry_counterexample :
    dirPngEntry.type_ = "dir" ∧ is_image dirPngEntry.name = true ∧
    get_images c8Env ⟨"o", "rfd", "master", "3"⟩ ⟨1⟩ = .ok [dirPngFile] :=
  ⟨rfl, by decide, by decide⟩

/-- Claim C8 (amended): after a directory entry's descendants are processed,
the entry's own image check is applied to the entry's NAME only: the directory
entry is itself fetched and appended exactly when its name matches the image
allow-list, so only directories with non-image names are never appended. -/
theorem images_dir_entry_amended (env : OctoEnv) (b : GitHubRFDBranchData)
    (n : RFDNumber) (e : ContentEntry) (f : ContentFile)
    (htop : env.getContentVecEntries b.owner b.repo n.repo_directory b.branch = .ok [e])
    (hdir : e.type_ = "dir")
    (hsub : env.getContentVecEntries b.owner b.repo (trimEndSlashes e.path) b.branch =
      .ok [])
    (hfetch : env.getGithubFile b.owner b.repo b.branch e = .ok f) :
    get_images env b n = .ok (if is_image e.name then [f] else []) := by
  unfold get_images
  rw [htop]
  dsimp only
  by_cases him : is_image e.name = true
  · simp [processOuter, hdir, hsub, processInner, hfetch, him]
  · simp [processOuter, hdir, hsub, processInner, him]

theorem images_dir_entry_amended_witness :
    dirPngEntry.type_ = "dir" ∧
    get_images c8Env ⟨"o", "rfd", "master", "3"⟩ ⟨1⟩ =
      .ok (if is_image dirPngEntry.name then [dirPngFile] else []) :=
  ⟨rfl,
   images_dir_entry_amended c8Env ⟨"o", "rfd", "master", "3"⟩ ⟨1⟩ dirPngEntry
     dirPngFile (by decide) rfl (by decide) rfl⟩

/-! ## `GitHubRFDRepo::get_rfd_sync_updates` (rfd/github.rs lines 68-106) -/

/-- Split a character list at a separator character. -/
def splitCharList (sep : Char) (cs : List Char) : List (List Char) :=
  go cs []
where
  go : List Char → List Char → List (List Char)
    | [], acc => [acc.reverse]
    | c :: rest, acc =>
      if c = sep then acc.reverse :: go rest [] else go rest (c :: acc)

def isDigitChar (c : Char) : Bool := 48 ≤ c.toNat && c.toNat ≤ 57

def digitsVal (ds : List Char) : Int :=
  ds.foldl (fun acc c => acc * 10 + ((c.toNat - 48 : Nat) : Int)) 0

/-- Parse a decimal integer field (serde i32 deserialization; the i32 range
check is not modelled). -/
def parseIntOpt (s : String) : Option Int :=
  match s.data with
  | [] => none
  | '-' :: ds => if !ds.isEmpty && ds.all isDigitChar then some (-(digitsVal ds)) else none
  | ds => if ds.all isDigitChar then some (digitsVal ds) else none

def findIndexOf (l : List (List Char)) (target : List Char) : Option Nat :=
  match l with
  | [] => none
  | x :: rest =>
    if x = target then some 0 else (findIndexOf rest target).map (· + 1)

/-- `RFDCsvRow` (rfd/github.rs lines 422-426). -/
structure RFDCsvRow where
  num : Int
  link : String
deriving DecidableEq

/-- Modelled from the spec (sections 4.8, 6): the manifest is a delimited
table with a header row naming the columns; a record deserializes to
`{num, link}` when both named columns are present and the `num` field parses
as an integer; other records fail (yielding `none`); unrecognized columns are
ignored. A simplified model of the csv crate: quoting/escapes and the CRLF
convention are not modelled; empty lines are ignored. -/
def csvParseRows (s : String) : List (Option RFDCsvRow) :=
  match (splitCharList '\n' s.data).filter (fun l => !l.isEmpty) with
  | [] => []
  | header :: records =>
    let cols := splitCharList ',' header
    let numIdx := findIndexOf cols ['n', 'u', 'm']
    let linkIdx := findIndexOf cols ['l', 'i', 'n', 'k']
    records.map fun r =>
      let fields := splitCharList ',' r
      match numIdx, linkIdx with
      | some ni, some li =>
        match fields.get? ni, fields.get? li with
        | some nf, some lf =>
          match parseIntOpt (String.mk nf) with
          | some nv => some ⟨nv, String.mk lf⟩
          | none => none
        | _, _ => none
      | _, _ => none

/-- Decode UTF-8 bytes to characters (`std::str::from_utf8`). -/
def utf8DecodeChars : Bytes → Option (List Char)
  | [] => some []
  | b :: rest =>
    if b < 0x80 then (utf8DecodeChars rest).map (fun cs => Char.ofNat b :: cs)
    else if 0xC2 ≤ b ∧ b ≤ 0xDF then
      match rest with
      | c :: rest2 =>
        if 0x80 ≤ c ∧ c ≤ 0xBF then
          (utf8DecodeChars rest2).map
            (fun cs => Char.ofNat ((b - 0xC0) * 64 + (c - 0x80)) :: cs)
        else none
      | [] => none
    else if 0xE0 ≤ b ∧ b ≤ 0xEF then
      match rest with
      | c :: d :: rest2 =>
        if (if b = 0xE0 then 0xA0 ≤ c ∧ c ≤ 0xBF
            else if b = 0xED then 0x80 ≤ c ∧ c ≤ 0x9F
            else 0x80 ≤ c ∧ c ≤ 0xBF) ∧ 0x80 ≤ d ∧ d ≤ 0xBF then
          (utf8DecodeChars rest2).map
            (fun cs => Char.ofNat ((b - 0xE0) * 4096 + (c - 0x80) * 64 + (d - 0x80)) :: cs)
        else none
      | _ => none
    else if 0xF0 ≤ b ∧ b ≤ 0xF4 then
      match rest with
      | c :: d :: e :: rest2 =>
        if (if b = 0xF0 then 0x90 ≤ c ∧ c ≤ 0xBF
            else if b = 0xF4 then 0x80 ≤ c ∧ c ≤ 0x8F
            else 0x80 ≤ c ∧ c ≤ 0xBF) ∧ (0x80 ≤ d ∧ d ≤ 0xBF) ∧
            (0x80 ≤ e ∧ e ≤ 0xBF) then
          (utf8DecodeChars rest2).map
            (fun cs => Char.ofNat
              ((b - 0xF0) * 262144 + (c - 0x80) * 4096 + (d - 0x80) * 64 + (e - 0x80)) :: cs)
        else none
      | _ => none
    else none

def utf8DecodeOpt (bs : Bytes) : Option String := (utf8DecodeChars bs).map String.mk

/-- `GitHubRFDRepo` without the shared client handle. -/
structure GitHubRFDRepoData where
  owner : String
  repo : String
  default_branch : String
deriving DecidableEq

/-- `GitHubRFDRepo::branch` (rfd/github.rs lines 56-64). -/
def GitHubRFDRepoData.branch (self : GitHubRFDRepoData) (branch : String) :
    GitHubRFDBranchData :=
  ⟨self.owner, self.repo, self.default_branch, branch⟩

/-- `GitHubRFDUpdate` (rfd/github.rs lines 410-414). -/
structure GitHubRFDUpdate where
  number : RFDNumber
  branch : GitHubRFDBranchData
deriving DecidableEq

/-- `GitHubRFDRepo::get_rfd_sync_updates` (rfd/github.rs lines 68-106). -/
def get_rfd_sync_updates (env : OctoEnv) (self : GitHubRFDRepoData) :
    Except OctoErr (List GitHubRFDUpdate) :=
  match env.getFileContent self.owner self.repo self.default_branch
      "/.helpers/rfd.csv" with
  | .error e => .error e
  | .ok (rfd_csv_content, _) =>
    match utf8DecodeOpt rfd_csv_content with
    | none => .error ⟨"invalid utf-8"⟩
    | some rfd_csv_string =>
      .ok ((csvParseRows rfd_csv_string).filterMap fun r =>
        r.map fun row =>
          let number : RFDNumber := ⟨row.num⟩
          let branch_name :=
            if strContains row.link ("/" ++ self.default_branch ++ "/") then
              self.default_branch
            else number.as_number_string
          { number := number, branch := self.branch branch_name })

/-- The claim's resolution rule, spelled out: keep well-formed rows in order;
branch is the default branch when the link contains "/defaultBranch/",
otherwise the decimal string form of num. -/
def resolveRowsSpec (repo : GitHubRFDRepoData) (rows : List (Option RFDCsvRow)) :
    List GitHubRFDUpdate :=
  rows.filterMap fun r =>
    r.map fun row =>
      { number := ⟨row.num⟩,
        branch := repo.branch
          (if strContains row.link ("/" ++ repo.default_branch ++ "/") then
            repo.default_branch
          else intToString row.num) }

/-- Claim C9: each well-formed manifest row resolves to the default branch iff
its link contains "/defaultBranch/" and to the decimal string of its number
otherwise; rows that fail to deserialize are skipped silently; output order
follows row order. -/
theorem manifest_resolution (env : OctoEnv) (repo : GitHubRFDRepoData)
    (bytes : Bytes) (sha : String) (s : String)
    (hf : env.getFileContent repo.owner repo.repo repo.default_branch
      "/.helpers/rfd.csv" = .ok (bytes, sha))
    (hdec : utf8DecodeOpt bytes = some s) :
    get_rfd_sync_updates env repo = .ok (resolveRowsSpec repo (csvParseRows s)) := by
  unfold get_rfd_sync_updates resolveRowsSpec
  rw [hf]
  dsimp only
  rw [hdec]
  rfl

def c9Csv : String := "num,link\n1,https://x/master/x\n2,https://x/2/x\n"

def c9Env : OctoEnv where
  getContentFile := fun _ _ _ _ => .error ⟨"nf"⟩
  getContentVecEntries := fun _ _ _ _ => .error ⟨"nf"⟩
  getGithubFile := fun _ _ _ _ => .error ⟨"nf"⟩
  getFileContent := fun _ _ _ p =>
    if p = "/.helpers/rfd.csv" then .ok (asciiB c9Csv, "csvsha") else .error ⟨"nf"⟩

theorem manifest_resolution_witness :
    c9Env.getFileContent "o" "rfd" "master" "/.helpers/rfd.csv" =
      .ok (asciiB c9Csv, "csvsha") ∧
    utf8DecodeOpt (asciiB c9Csv) = some c9Csv ∧
    get_rfd_sync_updates c9Env ⟨"o", "rfd", "master"⟩ =
      .ok [⟨⟨1⟩, ⟨"o", "rfd", "master", "master"⟩⟩, ⟨⟨2⟩, ⟨"o", "rfd", "master", "2"⟩⟩] :=
  ⟨by decide, by decide,
   (manifest_resolution c9Env ⟨"o", "rfd", "master"⟩ (asciiB c9Csv) "csvsha" c9Csv
       (by decide) (by decide)).trans (by decide)⟩

end CioSpec
